import Mathlib

/- Verification of the 0/1 knapsack solver in src/knapsack.c: input
   validation, overflow-checked dynamic programming with a weight-minimizing
   tie-break, terminal-cell selection, and backtracking reconstruction. -/

set_option maxHeartbeats 1000000

namespace Knapsack

/-- Range of a 32-bit C int: INT_MAX. -/
def INT_MAX : Int := 2147483647

/-- Range of a 32-bit C int: INT_MIN. -/
def INT_MIN : Int := -2147483648

/-- C SIZE_MAX for a 64-bit size_t. -/
def SIZE_MAX : Nat := 18446744073709551615

/-- Mirror of knapsack_item_t: an item with weight and value (C ints,
modelled as unbounded integers; validation confines them to the ranges the
code exercises, and the DP range-checks every accumulation). -/
structure knapsack_item_t where
  weight : Int
  value : Int
  deriving DecidableEq, Repr

/-- Mirror of knapsack_result_t; selected_indices = [] models a NULL indices
pointer (the code allocates the buffer only when at least one item is
selected, so a non-null empty buffer never occurs). -/
structure knapsack_result_t where
  optimal_value : Int
  selected_count : Nat
  selected_indices : List Nat
  deriving DecidableEq, Repr

/-- Mirror of knapsack_status_t. -/
inductive knapsack_status_t where
  | KNAPSACK_OK
  | KNAPSACK_ERR_NULL_RESULT
  | KNAPSACK_ERR_INVALID_ITEMS
  | KNAPSACK_ERR_TOO_MANY_ITEMS
  | KNAPSACK_ERR_INVALID_CAPACITY
  | KNAPSACK_ERR_DIMENSION_OVERFLOW
  | KNAPSACK_ERR_INT_OVERFLOW
  | KNAPSACK_ERR_ALLOC
  deriving DecidableEq, Repr

open knapsack_status_t

open scoped List

/-- Compiled bound on the item count. -/
def KNAPSACK_MAX_ITEMS : Nat := 100

/-- Compiled bound on the capacity. -/
def KNAPSACK_MAX_CAPACITY : Int := 100000

/-- Mirror of reset_result: the zeroed result every call starts from and
every error path leaves behind. -/
def reset_result : knapsack_result_t :=
  { optimal_value := 0, selected_count := 0, selected_indices := [] }

/-- Mirror of validate_inputs. items = none models a NULL item pointer; the
list length plays the role of the separate count argument. -/
def validate_inputs : Option (List knapsack_item_t) → Int → knapsack_status_t
  | none, _ => KNAPSACK_ERR_INVALID_ITEMS
  | some l, capacity =>
    if l.length = 0 then KNAPSACK_ERR_INVALID_ITEMS
    else if l.length > KNAPSACK_MAX_ITEMS then KNAPSACK_ERR_TOO_MANY_ITEMS
    else if capacity < 0 ∨ capacity > KNAPSACK_MAX_CAPACITY then KNAPSACK_ERR_INVALID_CAPACITY
    else if l.any fun it => decide (it.weight ≤ 0 ∨ it.value < 0) then KNAPSACK_ERR_INVALID_ITEMS
    else KNAPSACK_OK

/-- Mirror of add_int_no_overflow: the long long sum of two ints is always
exact, so the model adds exactly and range-checks against the int range. -/
def add_int_no_overflow (lhs rhs : Int) : Option Int :=
  let sum := lhs + rhs
  if sum > INT_MAX ∨ sum < INT_MIN then none else some sum

/-- Mirror of knapsack_workspace_t as seen between run_dp iterations: the
rows live in arrays of exactly width cells and are only ever read below
width, so they are modelled as total functions; take is the flat count by
width decision matrix, indexed by item row and capacity column. -/
structure knapsack_workspace_t where
  width : Nat
  prev_value : Nat → Int
  prev_weight : Nat → Nat
  take : Nat → Nat → Bool

/-- Mirror of allocate_workspace on the success path: calloc zeroes all
buffers. -/
def allocate_workspace (width : Nat) : knapsack_workspace_t :=
  { width := width, prev_value := fun _ => 0, prev_weight := fun _ => 0,
    take := fun _ _ => false }

/-- The improvement test shared by run_dp and select_best_cap:
candidate value strictly larger, or equal value with strictly smaller
accumulated weight. -/
def dp_candidate_better (cand_val : Int) (cand_weight : Nat)
    (cur_val : Int) (cur_weight : Nat) : Bool :=
  decide (cand_val > cur_val ∨ (cand_val = cur_val ∧ cand_weight < cur_weight))

/-- The overflow scan of one run_dp item iteration: add_int_no_overflow is
consulted at every cap in [item_weight, width), and any failure aborts the
whole solve. -/
def dp_row_ok (w : knapsack_workspace_t) (item_weight : Nat) (item_value : Int) : Bool :=
  (List.range w.width).all fun cap =>
    if item_weight ≤ cap then
      (add_int_no_overflow (w.prev_value (cap - item_weight)) item_value).isSome
    else true

/-- One iteration of run_dp's outer loop for item i, covering copy_row, the
inner cap loop, and the row swap: a cell below item_weight or at least width
keeps the previous row's entry; a cell in range takes the candidate from
prev exactly when dp_candidate_better holds, recording the decision in take
row i. The weight cast (size_t)item_weight is toNat, exact because
validation admits only positive weights. -/
def dp_item_step (i : Nat) (it : knapsack_item_t) (w : knapsack_workspace_t) :
    Option knapsack_workspace_t :=
  let iw := it.weight.toNat
  let iv := it.value
  if dp_row_ok w iw iv then
    some { w with
      prev_value := fun cap =>
        if iw ≤ cap ∧ cap < w.width then
          if dp_candidate_better (w.prev_value (cap - iw) + iv) (w.prev_weight (cap - iw) + iw)
              (w.prev_value cap) (w.prev_weight cap) then
            w.prev_value (cap - iw) + iv
          else w.prev_value cap
        else w.prev_value cap,
      prev_weight := fun cap =>
        if iw ≤ cap ∧ cap < w.width then
          if dp_candidate_better (w.prev_value (cap - iw) + iv) (w.prev_weight (cap - iw) + iw)
              (w.prev_value cap) (w.prev_weight cap) then
            w.prev_weight (cap - iw) + iw
          else w.prev_weight cap
        else w.prev_weight cap,
      take := fun j cap =>
        if j = i ∧ iw ≤ cap ∧ cap < w.width then
          dp_candidate_better (w.prev_value (cap - iw) + iv) (w.prev_weight (cap - iw) + iw)
            (w.prev_value cap) (w.prev_weight cap)
        else w.take j cap }
  else none

/-- The item fold of run_dp, carrying the index of the item being
processed. -/
def run_dp_aux : Nat → List knapsack_item_t → knapsack_workspace_t →
    Option knapsack_workspace_t
  | _, [], w => some w
  | i, it :: rest, w =>
    match dp_item_step i it w with
    | none => none
    | some w2 => run_dp_aux (i + 1) rest w2

/-- Mirror of run_dp: fold all items through dp_item_step over a freshly
zeroed workspace, aborting on the first arithmetic overflow. -/
def run_dp (items : List knapsack_item_t) (width : Nat) : Option knapsack_workspace_t :=
  run_dp_aux 0 items (allocate_workspace width)

/-- One iteration of select_best_cap's scan, tracking (best_cap, best_val,
best_weight). -/
def select_best_step (w : knapsack_workspace_t) (best : Nat × Int × Nat) (cap : Nat) :
    Nat × Int × Nat :=
  if dp_candidate_better (w.prev_value cap) (w.prev_weight cap) best.2.1 best.2.2 then
    (cap, w.prev_value cap, w.prev_weight cap)
  else best

/-- Mirror of select_best_cap: scan caps 1..width-1 from the cap-0 cell,
keeping the cell of maximum value, ties broken by minimum accumulated
weight (strict comparisons keep the smallest such cap). -/
def select_best_cap (w : knapsack_workspace_t) : Nat :=
  ((List.range' 1 (w.width - 1)).foldl (select_best_step w)
    (0, w.prev_value 0, w.prev_weight 0)).1

/-- The backtracking loop of reconstruct_solution: walk items last to first
from the chosen cell; a set take flag selects the item and moves the cell
down by the item's weight. The list comes out in ascending index order,
exactly as the second C pass stores each hit at indices[--write] while i
descends. -/
def reconstruct_walk (w : knapsack_workspace_t) (items : List knapsack_item_t) :
    Nat → Nat → List Nat
  | 0, _ => []
  | i + 1, cap =>
    if w.take i cap then
      reconstruct_walk w items i
        (cap - ((items.getD i { weight := 0, value := 0 }).weight).toNat) ++ [i]
    else reconstruct_walk w items i cap

/-- Mirror of reconstruct_solution. idx_alloc_ok models the malloc of the
index buffer, consulted only when at least one item was selected; on its
failure nothing is written and the caller reports an allocation error. The
qsort with compare_size_t is modelled as an ascending sort. -/
def reconstruct_solution (idx_alloc_ok : Bool) (w : knapsack_workspace_t)
    (items : List knapsack_item_t) (count : Nat) (best_cap : Nat) :
    Option knapsack_result_t :=
  let selected := reconstruct_walk w items count best_cap
  if selected.length = 0 then
    some { optimal_value := w.prev_value best_cap, selected_count := 0,
           selected_indices := [] }
  else if idx_alloc_ok = false then none
  else
    let indices := selected.insertionSort (· ≤ ·)
    some { optimal_value := w.prev_value best_cap, selected_count := indices.length,
           selected_indices := indices }

/-- Mirror of knapsack_solve_status for a non-NULL out_result. The two Bool
arguments model the success of the workspace calloc block and of the index
buffer malloc; the returned pair is the status together with the final
contents of out_result. -/
def knapsack_solve_status (ws_alloc_ok idx_alloc_ok : Bool)
    (items : Option (List knapsack_item_t)) (capacity : Int) :
    knapsack_status_t × knapsack_result_t :=
  let input_status := validate_inputs items capacity
  if input_status ≠ KNAPSACK_OK then (input_status, reset_result)
  else
    let l := items.getD []
    let count := l.length
    let width := capacity.toNat + 1
    if count ≠ 0 ∧ width > SIZE_MAX / count then
      (KNAPSACK_ERR_DIMENSION_OVERFLOW, reset_result)
    else if width * count = 0 then (KNAPSACK_ERR_DIMENSION_OVERFLOW, reset_result)
    else if ws_alloc_ok = false then (KNAPSACK_ERR_ALLOC, reset_result)
    else
      match run_dp l width with
      | none => (KNAPSACK_ERR_INT_OVERFLOW, reset_result)
      | some w =>
        match reconstruct_solution idx_alloc_ok w l count (select_best_cap w) with
        | none => (KNAPSACK_ERR_ALLOC, reset_result)
        | some r => (KNAPSACK_OK, r)

/-- Mirror of knapsack_solve: true exactly on KNAPSACK_OK. -/
def knapsack_solve (ws_alloc_ok idx_alloc_ok : Bool)
    (items : Option (List knapsack_item_t)) (capacity : Int) :
    Bool × knapsack_result_t :=
  let sr := knapsack_solve_status ws_alloc_ok idx_alloc_ok items capacity
  (decide (sr.1 = KNAPSACK_OK), sr.2)

/-- Total weight of a list of items. -/
def subset_weight (S : List knapsack_item_t) : Int :=
  (S.map fun it => it.weight).sum

/-- Total value of a list of items. -/
def subset_value (S : List knapsack_item_t) : Int :=
  (S.map fun it => it.value).sum

/-- The items of l sitting at the given index list. -/
def items_at (l : List knapsack_item_t) (R : List Nat) : List knapsack_item_t :=
  R.map fun j => l.getD j { weight := 0, value := 0 }

/-- Brute force reference: the maximum subset value over all 2^count
sublists whose weight fits the capacity. When capacity ≥ 0 the empty
sublist always qualifies, so the fold base 0 is itself one of the
enumerated values. -/
def brute_force_best (l : List knapsack_item_t) (capacity : Int) : Int :=
  ((l.sublists.filter fun S => decide (subset_weight S ≤ capacity)).map
    subset_value).foldr max 0

theorem subset_value_append (S T : List knapsack_item_t) :
    subset_value (S ++ T) = subset_value S + subset_value T := by
  simp [subset_value]

theorem subset_weight_append (S T : List knapsack_item_t) :
    subset_weight (S ++ T) = subset_weight S + subset_weight T := by
  simp [subset_weight]

theorem subset_value_singleton (it : knapsack_item_t) : subset_value [it] = it.value := by
  simp [subset_value]

theorem subset_weight_singleton (it : knapsack_item_t) : subset_weight [it] = it.weight := by
  simp [subset_weight]

theorem subset_weight_nonneg (S : List knapsack_item_t)
    (h : ∀ x ∈ S, 0 ≤ x.weight) : 0 ≤ subset_weight S := by
  induction S with
  | nil => simp [subset_weight]
  | cons a S ih =>
    have h1 := h a (List.mem_cons_self a S)
    have h2 := ih fun x hx => h x (List.mem_cons_of_mem _ hx)
    simp only [subset_weight, List.map_cons, List.sum_cons] at *
    omega

/-- Splitting a sublist of a one-element extension: either the last element
is not used, or it is and the rest is a sublist of the front. -/
theorem sublist_concat_cases {α : Type} {S A : List α} {a : α}
    (h : S <+ A ++ [a]) : S <+ A ∨ ∃ T, T <+ A ∧ S = T ++ [a] := by
  rw [List.sublist_append_iff] at h
  obtain ⟨S1, S2, rfl, h1, h2⟩ := h
  rcases List.sublist_singleton.mp h2 with rfl | rfl
  · exact Or.inl (by simpa using h1)
  · exact Or.inr ⟨S1, h1, rfl⟩

/-- The workspace invariant after the DP has processed the first i items:
each cell of the value/weight row holds the value of a best-value,
then-least-weight subset of the first i items fitting that cell's capacity,
some such subset attains exactly that value and weight, decision rows from
i upward are still clear, and backtracking from any cell recovers index
lists that are strictly ascending, below i, and of exactly the cell's value
and weight. -/
structure DpInv (l : List knapsack_item_t) (i : Nat) (w : knapsack_workspace_t) : Prop where
  achieved : ∀ c < w.width, ∃ S, S <+ l.take i ∧ subset_weight S ≤ (c : Int) ∧
    subset_value S = w.prev_value c ∧ subset_weight S = (w.prev_weight c : Int)
  maximal : ∀ c < w.width, ∀ S, S <+ l.take i → subset_weight S ≤ (c : Int) →
    subset_value S ≤ w.prev_value c
  minimal : ∀ c < w.width, ∀ S, S <+ l.take i → subset_weight S ≤ (c : Int) →
    subset_value S = w.prev_value c → (w.prev_weight c : Int) ≤ subset_weight S
  rows_clean : ∀ j, i ≤ j → ∀ c, w.take j c = false
  walk_value : ∀ c < w.width,
    subset_value (items_at l (reconstruct_walk w l i c)) = w.prev_value c
  walk_weight : ∀ c < w.width,
    subset_weight (items_at l (reconstruct_walk w l i c)) = (w.prev_weight c : Int)
  walk_bounds : ∀ c < w.width, ∀ j ∈ reconstruct_walk w l i c, j < i
  walk_sorted : ∀ c < w.width, (reconstruct_walk w l i c).Pairwise (· < ·)

/-- The freshly allocated workspace satisfies the invariant for zero
processed items. -/
theorem dpInv_init (l : List knapsack_item_t) (width : Nat) :
    DpInv l 0 (allocate_workspace width) := by
  have hwalk : ∀ c, reconstruct_walk (allocate_workspace width) l 0 c = [] := fun _ => rfl
  refine ⟨?_, ?_, ?_, ?_, ?_, ?_, ?_, ?_⟩
  · intro c _
    exact ⟨[], by simp [allocate_workspace, subset_weight, subset_value]⟩
  · intro c _ S hS _
    have : S = [] := List.sublist_nil.mp (by simpa using hS)
    subst this
    simp [allocate_workspace, subset_value]
  · intro c _ S hS _ _
    have : S = [] := List.sublist_nil.mp (by simpa using hS)
    subst this
    simp [allocate_workspace, subset_weight]
  · intro j _ c; rfl
  · intro c _; rw [hwalk]; simp [allocate_workspace, items_at, subset_value]
  · intro c _; rw [hwalk]; simp [allocate_workspace, items_at, subset_weight]
  · intro c _ j hj; rw [hwalk] at hj; cases hj
  · intro c _; rw [hwalk]; exact List.Pairwise.nil

/-- Backtracking over the first i rows only reads decision rows below i. -/
theorem reconstruct_walk_congr (w w2 : knapsack_workspace_t) (l : List knapsack_item_t) :
    ∀ i : Nat, (∀ j, j < i → ∀ cc, w2.take j cc = w.take j cc) →
      ∀ c, reconstruct_walk w2 l i c = reconstruct_walk w l i c := by
  intro i
  induction i with
  | zero => intro _ _; rfl
  | succ i ih =>
    intro h c
    simp only [reconstruct_walk]
    rw [h i (Nat.lt_succ_self i) c]
    by_cases htake : w.take i c = true
    · rw [if_pos htake, if_pos htake,
        ih (fun j hj cc => h j (Nat.lt_succ_of_lt hj) cc) _]
    · rw [if_neg htake, if_neg htake, ih (fun j hj cc => h j (Nat.lt_succ_of_lt hj) cc) c]

theorem dp_candidate_better_iff (a : Int) (b : Nat) (cv : Int) (cw : Nat) :
    dp_candidate_better a b cv cw = true ↔ (cv < a ∨ (a = cv ∧ b < cw)) := by
  simp [dp_candidate_better]

/-- The main preservation lemma: one dp_item_step for item i extends the
workspace invariant from the first i items to the first i + 1 and keeps the
width. -/
theorem dp_item_step_inv (l : List knapsack_item_t) (i : Nat) (it : knapsack_item_t)
    (w w2 : knapsack_workspace_t)
    (hpos : ∀ x ∈ l, 0 < x.weight)
    (hget : l[i]? = some it)
    (hinv : DpInv l i w)
    (hstep : dp_item_step i it w = some w2) :
    DpInv l (i + 1) w2 ∧ w2.width = w.width := by
  have hitmem : it ∈ l := List.getElem?_mem hget
  have hwpos : 0 < it.weight := hpos it hitmem
  have htake1 : l.take (i + 1) = l.take i ++ [it] := by
    rw [List.take_succ, hget]; rfl
  simp only [dp_item_step] at hstep
  by_cases hok : dp_row_ok w it.weight.toNat it.value = true
  case neg => rw [if_neg hok] at hstep; cases hstep
  rw [if_pos hok] at hstep
  injection hstep with hw2
  have hW : w2.width = w.width := by rw [← hw2]
  have hv : ∀ c, w2.prev_value c =
      if it.weight.toNat ≤ c ∧ c < w.width then
        if dp_candidate_better (w.prev_value (c - it.weight.toNat) + it.value)
            (w.prev_weight (c - it.weight.toNat) + it.weight.toNat)
            (w.prev_value c) (w.prev_weight c) then
          w.prev_value (c - it.weight.toNat) + it.value
        else w.prev_value c
      else w.prev_value c := by
    intro c; rw [← hw2]
  have hwt : ∀ c, w2.prev_weight c =
      if it.weight.toNat ≤ c ∧ c < w.width then
        if dp_candidate_better (w.prev_value (c - it.weight.toNat) + it.value)
            (w.prev_weight (c - it.weight.toNat) + it.weight.toNat)
            (w.prev_value c) (w.prev_weight c) then
          w.prev_weight (c - it.weight.toNat) + it.weight.toNat
        else w.prev_weight c
      else w.prev_weight c := by
    intro c; rw [← hw2]
  have htk : ∀ j c, w2.take j c =
      if j = i ∧ it.weight.toNat ≤ c ∧ c < w.width then
        dp_candidate_better (w.prev_value (c - it.weight.toNat) + it.value)
          (w.prev_weight (c - it.weight.toNat) + it.weight.toNat)
          (w.prev_value c) (w.prev_weight c)
      else w.take j c := by
    intro j c; rw [← hw2]
  have hsplit : ∀ S, S <+ l.take (i + 1) →
      S <+ l.take i ∨ ∃ T, T <+ l.take i ∧ S = T ++ [it] := by
    intro S hS
    rw [htake1] at hS
    exact sublist_concat_cases hS
  have hsub_l : ∀ T, T <+ l.take i → ∀ x ∈ T, x ∈ l := fun T hT x hx =>
    List.take_subset i l (hT.subset hx)
  have hTw0 : ∀ T, T <+ l.take i → 0 ≤ subset_weight T := fun T hT =>
    subset_weight_nonneg T fun x hx => le_of_lt (hpos x (hsub_l T hT x hx))
  have hext : ∀ T, T <+ l.take i → T ++ [it] <+ l.take (i + 1) := by
    intro T hT
    rw [htake1]
    exact hT.append (List.Sublist.refl [it])
  have hold : ∀ S, S <+ l.take i → S <+ l.take (i + 1) := by
    intro S hS
    rw [htake1]
    exact hS.trans (List.sublist_append_left _ _)
  have hrowseq : ∀ j, j < i → ∀ cc, w2.take j cc = w.take j cc := by
    intro j hj cc
    rw [htk]
    exact if_neg (by rintro ⟨hji, -⟩; exact Nat.ne_of_lt hj hji)
  have hwalks : ∀ cc, reconstruct_walk w2 l i cc = reconstruct_walk w l i cc :=
    reconstruct_walk_congr w w2 l i hrowseq
  have hgetD : l.getD i { weight := 0, value := 0 } = it := by
    rw [List.getD_eq_getElem?_getD, hget]; rfl
  have hwalkstep : ∀ cc, reconstruct_walk w2 l (i + 1) cc =
      if w2.take i cc then reconstruct_walk w2 l i (cc - it.weight.toNat) ++ [i]
      else reconstruct_walk w2 l i cc := by
    intro cc
    simp only [reconstruct_walk, hgetD]
  have htki : ∀ cc, w2.take i cc =
      if it.weight.toNat ≤ cc ∧ cc < w.width then
        dp_candidate_better (w.prev_value (cc - it.weight.toNat) + it.value)
          (w.prev_weight (cc - it.weight.toNat) + it.weight.toNat)
          (w.prev_value cc) (w.prev_weight cc)
      else w.take i cc := by
    intro cc
    rw [htk]
    simp only [eq_self_iff_true, true_and]
  refine ⟨⟨?_, ?_, ?_, ?_, ?_, ?_, ?_, ?_⟩, hW⟩
  -- achieved
  · intro c hc
    rw [hW] at hc
    rw [hv c, hwt c]
    by_cases hle : it.weight.toNat ≤ c
    case neg =>
      have hnc : ¬(it.weight.toNat ≤ c ∧ c < w.width) := fun h => hle h.1
      rw [if_neg hnc, if_neg hnc]
      obtain ⟨S, hS, h1, h2, h3⟩ := hinv.achieved c hc
      exact ⟨S, hold S hS, h1, h2, h3⟩
    case pos =>
      have hcond : it.weight.toNat ≤ c ∧ c < w.width := ⟨hle, hc⟩
      have hcsub : c - it.weight.toNat < w.width := lt_of_le_of_lt (Nat.sub_le c _) hc
      by_cases hbet : dp_candidate_better (w.prev_value (c - it.weight.toNat) + it.value)
          (w.prev_weight (c - it.weight.toNat) + it.weight.toNat)
          (w.prev_value c) (w.prev_weight c) = true
      · rw [if_pos hcond, if_pos hcond, if_pos hbet, if_pos hbet]
        obtain ⟨T, hT, h1, h2, h3⟩ := hinv.achieved (c - it.weight.toNat) hcsub
        refine ⟨T ++ [it], hext T hT, ?_, ?_, ?_⟩
        · rw [subset_weight_append, subset_weight_singleton]; omega
        · rw [subset_value_append, subset_value_singleton]; omega
        · rw [subset_weight_append, subset_weight_singleton]; omega
      · rw [if_pos hcond, if_pos hcond, if_neg hbet, if_neg hbet]
        obtain ⟨S, hS, h1, h2, h3⟩ := hinv.achieved c hc
        exact ⟨S, hold S hS, h1, h2, h3⟩
  -- maximal
  · intro c hc S hS hw
    rw [hW] at hc
    rw [hv c]
    by_cases hle : it.weight.toNat ≤ c
    case neg =>
      have hnc : ¬(it.weight.toNat ≤ c ∧ c < w.width) := fun h => hle h.1
      rw [if_neg hnc]
      rcases hsplit S hS with hS' | ⟨T, hT, rfl⟩
      · exact hinv.maximal c hc S hS' hw
      · exfalso
        have h0 := hTw0 T hT
        rw [subset_weight_append, subset_weight_singleton] at hw
        omega
    case pos =>
      have hcond : it.weight.toNat ≤ c ∧ c < w.width := ⟨hle, hc⟩
      rw [if_pos hcond]
      have hcsub : c - it.weight.toNat < w.width := lt_of_le_of_lt (Nat.sub_le c _) hc
      by_cases hbet : dp_candidate_better (w.prev_value (c - it.weight.toNat) + it.value)
          (w.prev_weight (c - it.weight.toNat) + it.weight.toNat)
          (w.prev_value c) (w.prev_weight c) = true
      · rw [if_pos hbet]
        rw [dp_candidate_better_iff] at hbet
        have hge : w.prev_value c ≤ w.prev_value (c - it.weight.toNat) + it.value := by
          rcases hbet with h | h
          · omega
          · omega
        rcases hsplit S hS with hS' | ⟨T, hT, rfl⟩
        · exact le_trans (hinv.maximal c hc S hS' hw) hge
        · rw [subset_value_append, subset_value_singleton]
          rw [subset_weight_append, subset_weight_singleton] at hw
          have hTle : subset_weight T ≤ ((c - it.weight.toNat : Nat) : Int) := by omega
          have := hinv.maximal _ hcsub T hT hTle
          omega
      · rw [if_neg hbet]
        rw [dp_candidate_better_iff] at hbet
        push_neg at hbet
        rcases hsplit S hS with hS' | ⟨T, hT, rfl⟩
        · exact hinv.maximal c hc S hS' hw
        · rw [subset_value_append, subset_value_singleton]
          rw [subset_weight_append, subset_weight_singleton] at hw
          have hTle : subset_weight T ≤ ((c - it.weight.toNat : Nat) : Int) := by omega
          have := hinv.maximal _ hcsub T hT hTle
          omega
  -- minimal
  · intro c hc S hS hsw hval
    rw [hW] at hc
    rw [hv c] at hval
    rw [hwt c]
    by_cases hle : it.weight.toNat ≤ c
    case neg =>
      have hnc : ¬(it.weight.toNat ≤ c ∧ c < w.width) := fun h => hle h.1
      rw [if_neg hnc] at hval
      rw [if_neg hnc]
      rcases hsplit S hS with hS' | ⟨T, hT, rfl⟩
      · exact hinv.minimal c hc S hS' hsw hval
      · exfalso
        have h0 := hTw0 T hT
        rw [subset_weight_append, subset_weight_singleton] at hsw
        omega
    case pos =>
      have hcond : it.weight.toNat ≤ c ∧ c < w.width := ⟨hle, hc⟩
      rw [if_pos hcond] at hval
      rw [if_pos hcond]
      have hcsub : c - it.weight.toNat < w.width := lt_of_le_of_lt (Nat.sub_le c _) hc
      by_cases hbet : dp_candidate_better (w.prev_value (c - it.weight.toNat) + it.value)
          (w.prev_weight (c - it.weight.toNat) + it.weight.toNat)
          (w.prev_value c) (w.prev_weight c) = true
      · rw [if_pos hbet] at hval
        rw [if_pos hbet]
        rw [dp_candidate_better_iff] at hbet
        rcases hsplit S hS with hS' | ⟨T, hT, rfl⟩
        · have hmax := hinv.maximal c hc S hS' hsw
          rcases hbet with hgt | ⟨heq, hlt⟩
          · omega
          · have hmin := hinv.minimal c hc S hS' hsw (by omega)
            omega
        · rw [subset_weight_append, subset_weight_singleton] at hsw ⊢
          rw [subset_value_append, subset_value_singleton] at hval
          have hTle : subset_weight T ≤ ((c - it.weight.toNat : Nat) : Int) := by omega
          have hTval : subset_value T = w.prev_value (c - it.weight.toNat) := by omega
          have hmin := hinv.minimal _ hcsub T hT hTle hTval
          omega
      · rw [if_neg hbet] at hval
        rw [if_neg hbet]
        rw [dp_candidate_better_iff] at hbet
        push_neg at hbet
        rcases hsplit S hS with hS' | ⟨T, hT, rfl⟩
        · exact hinv.minimal c hc S hS' hsw hval
        · rw [subset_weight_append, subset_weight_singleton] at hsw ⊢
          rw [subset_value_append, subset_value_singleton] at hval
          have hTle : subset_weight T ≤ ((c - it.weight.toNat : Nat) : Int) := by omega
          have hTmax := hinv.maximal _ hcsub T hT hTle
          have hTval : subset_value T = w.prev_value (c - it.weight.toNat) := by omega
          have hmin := hinv.minimal _ hcsub T hT hTle hTval
          have h2 := hbet.2 (by omega)
          omega
  -- rows_clean
  · intro j hj cc
    have hnc : ¬(j = i ∧ it.weight.toNat ≤ cc ∧ cc < w.width) := by
      rintro ⟨rfl, -⟩; omega
    rw [htk, if_neg hnc]
    exact hinv.rows_clean j (by omega) cc
  -- walk_value
  · intro c hc
    rw [hW] at hc
    rw [hwalkstep c, hv c]
    by_cases hle : it.weight.toNat ≤ c
    · have hcond : it.weight.toNat ≤ c ∧ c < w.width := ⟨hle, hc⟩
      rw [htki c, if_pos hcond]
      have hcsub : c - it.weight.toNat < w.width := lt_of_le_of_lt (Nat.sub_le c _) hc
      by_cases hbet : dp_candidate_better (w.prev_value (c - it.weight.toNat) + it.value)
          (w.prev_weight (c - it.weight.toNat) + it.weight.toNat)
          (w.prev_value c) (w.prev_weight c) = true
      · rw [if_pos hbet, if_pos hcond, if_pos hbet, hwalks]
        have happ : items_at l (reconstruct_walk w l i (c - it.weight.toNat) ++ [i]) =
            items_at l (reconstruct_walk w l i (c - it.weight.toNat)) ++ [it] := by
          simp [items_at, List.getD_eq_getElem?_getD, hget]
        rw [happ, subset_value_append, subset_value_singleton,
          hinv.walk_value _ hcsub]
      · rw [if_neg hbet, if_pos hcond, if_neg hbet, hwalks, hinv.walk_value c hc]
    · have hnc : ¬(it.weight.toNat ≤ c ∧ c < w.width) := fun h => hle h.1
      have hfalse : w2.take i c = false := by
        rw [htki c, if_neg hnc]
        exact hinv.rows_clean i (le_refl i) c
      have hfneg : ¬(false = true) := by decide
      rw [hfalse, if_neg hfneg, hwalks, hinv.walk_value c hc, if_neg hnc]
  -- walk_weight
  · intro c hc
    rw [hW] at hc
    rw [hwalkstep c, hwt c]
    by_cases hle : it.weight.toNat ≤ c
    · have hcond : it.weight.toNat ≤ c ∧ c < w.width := ⟨hle, hc⟩
      rw [htki c, if_pos hcond]
      have hcsub : c - it.weight.toNat < w.width := lt_of_le_of_lt (Nat.sub_le c _) hc
      by_cases hbet : dp_candidate_better (w.prev_value (c - it.weight.toNat) + it.value)
          (w.prev_weight (c - it.weight.toNat) + it.weight.toNat)
          (w.prev_value c) (w.prev_weight c) = true
      · rw [if_pos hbet, if_pos hcond, if_pos hbet, hwalks]
        have happ : items_at l (reconstruct_walk w l i (c - it.weight.toNat) ++ [i]) =
            items_at l (reconstruct_walk w l i (c - it.weight.toNat)) ++ [it] := by
          simp [items_at, List.getD_eq_getElem?_getD, hget]
        rw [happ, subset_weight_append, subset_weight_singleton,
          hinv.walk_weight _ hcsub]
        omega
      · rw [if_neg hbet, if_pos hcond, if_neg hbet, hwalks, hinv.walk_weight c hc]
    · have hnc : ¬(it.weight.toNat ≤ c ∧ c < w.width) := fun h => hle h.1
      have hfalse : w2.take i c = false := by
        rw [htki c, if_neg hnc]
        exact hinv.rows_clean i (le_refl i) c
      have hfneg : ¬(false = true) := by decide
      rw [hfalse, if_neg hfneg, hwalks, hinv.walk_weight c hc, if_neg hnc]
  -- walk_bounds
  · intro c hc j hj
    rw [hW] at hc
    rw [hwalkstep c] at hj
    by_cases hfl : w2.take i c = true
    · rw [if_pos hfl, hwalks] at hj
      rcases List.mem_append.mp hj with hj1 | hj2
      · exact Nat.lt_succ_of_lt
          (hinv.walk_bounds _ (lt_of_le_of_lt (Nat.sub_le c _) hc) j hj1)
      · rw [List.mem_singleton] at hj2
        subst hj2
        exact Nat.lt_succ_self j
    · rw [if_neg hfl, hwalks] at hj
      exact Nat.lt_succ_of_lt (hinv.walk_bounds c hc j hj)
  -- walk_sorted
  · intro c hc
    rw [hW] at hc
    rw [hwalkstep c]
    by_cases hfl : w2.take i c = true
    · rw [if_pos hfl, hwalks]
      refine List.pairwise_append.mpr
        ⟨hinv.walk_sorted _ (lt_of_le_of_lt (Nat.sub_le c _) hc),
          List.pairwise_singleton _ _, ?_⟩
      intro a ha b hb
      rw [List.mem_singleton] at hb
      subst hb
      exact hinv.walk_bounds _ (lt_of_le_of_lt (Nat.sub_le c _) hc) a ha
    · rw [if_neg hfl, hwalks]
      exact hinv.walk_sorted c hc

/-- The invariant carried over the remaining items of the run_dp fold. -/
theorem run_dp_aux_inv (l : List knapsack_item_t)
    (hpos : ∀ x ∈ l, 0 < x.weight) :
    ∀ (rest : List knapsack_item_t) (i : Nat) (w wfin : knapsack_workspace_t),
      l.drop i = rest → i ≤ l.length → DpInv l i w →
      run_dp_aux i rest w = some wfin →
      DpInv l l.length wfin ∧ wfin.width = w.width := by
  intro rest
  induction rest with
  | nil =>
    intro i w wfin hdrop hile hinv hrun
    injection hrun with h
    subst h
    have hlen : l.length ≤ i := by
      by_contra hcon
      have : l.drop i ≠ [] := by
        intro hnil
        have := List.length_drop i l
        rw [hnil] at this
        simp at this
        omega
      exact this hdrop
    have : i = l.length := le_antisymm hile hlen
    subst this
    exact ⟨hinv, rfl⟩
  | cons it rest ih =>
    intro i w wfin hdrop hile hinv hrun
    have hlt : i < l.length := by
      by_contra hcon
      rw [List.drop_eq_nil_of_le (by omega)] at hdrop
      cases hdrop
    have hcons := List.drop_eq_getElem_cons hlt
    rw [hcons] at hdrop
    injection hdrop with h1 h2
    have hget : l[i]? = some it := by
      rw [List.getElem?_eq_getElem hlt, h1]
    cases hstep : dp_item_step i it w with
    | none =>
      simp only [run_dp_aux, hstep] at hrun
      cases hrun
    | some w2 =>
      simp only [run_dp_aux, hstep] at hrun
      obtain ⟨hinv2, hW2⟩ := dp_item_step_inv l i it w w2 hpos hget hinv hstep
      obtain ⟨hfin, hWf⟩ := ih (i + 1) w2 wfin h2 (by omega) hinv2 hrun
      exact ⟨hfin, by rw [hWf, hW2]⟩

/-- A successful run_dp yields a workspace satisfying the full invariant for
all items, at the requested width. -/
theorem run_dp_inv (l : List knapsack_item_t) (width : Nat)
    (wfin : knapsack_workspace_t)
    (hpos : ∀ x ∈ l, 0 < x.weight)
    (hrun : run_dp l width = some wfin) :
    DpInv l l.length wfin ∧ wfin.width = width :=
  run_dp_aux_inv l hpos l 0 (allocate_workspace width) wfin rfl (Nat.zero_le _)
    (dpInv_init l width) hrun

/-- The select_best_cap fold keeps the cell data of the running best, only
moves to scanned cells, and dominates the start cell and every scanned cell
in the (value, then least weight) order. -/
theorem select_fold_spec (w : knapsack_workspace_t) :
    ∀ (cs : List Nat) (acc r : Nat × Int × Nat),
      acc.2.1 = w.prev_value acc.1 → acc.2.2 = w.prev_weight acc.1 →
      cs.foldl (select_best_step w) acc = r →
      (r.2.1 = w.prev_value r.1 ∧ r.2.2 = w.prev_weight r.1) ∧
        (r.1 = acc.1 ∨ r.1 ∈ cs) ∧
        (w.prev_value acc.1 ≤ w.prev_value r.1 ∧
          (w.prev_value acc.1 = w.prev_value r.1 →
            w.prev_weight r.1 ≤ w.prev_weight acc.1)) ∧
        (∀ c ∈ cs, w.prev_value c ≤ w.prev_value r.1 ∧
          (w.prev_value c = w.prev_value r.1 → w.prev_weight r.1 ≤ w.prev_weight c)) := by
  intro cs
  induction cs with
  | nil =>
    intro acc r h1 h2 hr
    simp only [List.foldl_nil] at hr
    subst hr
    exact ⟨⟨h1, h2⟩, Or.inl rfl, ⟨le_refl _, fun _ => le_refl _⟩, by simp⟩
  | cons c cs ih =>
    intro acc r h1 h2 hr
    rw [List.foldl_cons] at hr
    have hstep : select_best_step w acc c =
        if dp_candidate_better (w.prev_value c) (w.prev_weight c) acc.2.1 acc.2.2 then
          (c, w.prev_value c, w.prev_weight c)
        else acc := rfl
    by_cases hb : dp_candidate_better (w.prev_value c) (w.prev_weight c) acc.2.1 acc.2.2 = true
    · rw [if_pos hb] at hstep
      rw [hstep] at hr
      rw [dp_candidate_better_iff, h1, h2] at hb
      obtain ⟨hflds, hmem, hdacc, hdcs⟩ := ih (c, w.prev_value c, w.prev_weight c) r rfl rfl hr
      dsimp only at hmem hdacc
      refine ⟨hflds, ?_, ?_, ?_⟩
      · rcases hmem with h | h
        · exact Or.inr (by rw [h]; exact List.mem_cons_self c cs)
        · exact Or.inr (List.mem_cons_of_mem c h)
      · constructor
        · rcases hb with h | h
          · exact le_trans (le_of_lt h) hdacc.1
          · exact le_trans (le_of_eq h.1.symm) hdacc.1
        · intro heq
          rcases hb with h | h
          · exfalso
            have := hdacc.1
            omega
          · have hcv : w.prev_value c = w.prev_value r.1 := by omega
            have := hdacc.2 hcv
            omega
      · intro x hx
        rcases List.mem_cons.mp hx with rfl | hx'
        · exact hdacc
        · exact hdcs x hx'
    · rw [if_neg hb] at hstep
      rw [hstep] at hr
      rw [dp_candidate_better_iff, h1, h2] at hb
      push_neg at hb
      obtain ⟨hflds, hmem, hdacc, hdcs⟩ := ih acc r h1 h2 hr
      refine ⟨hflds, ?_, hdacc, ?_⟩
      · rcases hmem with h | h
        · exact Or.inl h
        · exact Or.inr (List.mem_cons_of_mem c h)
      · intro x hx
        rcases List.mem_cons.mp hx with rfl | hx'
        · constructor
          · exact le_trans hb.1 hdacc.1
          · intro heq
            have hxacc : w.prev_value x = w.prev_value acc.1 := le_antisymm hb.1 (by
              have := hdacc.1
              omega)
            have h2' := hb.2 hxacc
            have hacc_r : w.prev_value acc.1 = w.prev_value r.1 := by omega
            exact le_trans (hdacc.2 hacc_r) h2'
        · exact hdcs x hx'

/-- select_best_cap returns an in-range cell whose value dominates every
cell, with ties broken towards minimal stored weight. -/
theorem select_best_cap_spec (w : knapsack_workspace_t) (hpos : 0 < w.width) :
    select_best_cap w < w.width ∧
      ∀ c < w.width, w.prev_value c ≤ w.prev_value (select_best_cap w) ∧
        (w.prev_value c = w.prev_value (select_best_cap w) →
          w.prev_weight (select_best_cap w) ≤ w.prev_weight c) := by
  obtain ⟨hflds, hmem, hdacc, hdcs⟩ :=
    select_fold_spec w (List.range' 1 (w.width - 1))
      (0, w.prev_value 0, w.prev_weight 0)
      ((List.range' 1 (w.width - 1)).foldl (select_best_step w)
        (0, w.prev_value 0, w.prev_weight 0)) rfl rfl rfl
  have hbc : select_best_cap w =
      ((List.range' 1 (w.width - 1)).foldl (select_best_step w)
        (0, w.prev_value 0, w.prev_weight 0)).1 := rfl
  constructor
  · rw [hbc]
    rcases hmem with h | h
    · rw [h]; exact hpos
    · rw [List.mem_range'] at h
      obtain ⟨k, hk, hkeq⟩ := h
      omega
  · intro c hc
    rw [hbc]
    by_cases hc0 : c = 0
    · subst hc0
      exact hdacc
    · refine hdcs c ?_
      rw [List.mem_range']
      exact ⟨c - 1, by omega, by omega⟩

/-- Unfolding of successful validation into its domain facts. -/
theorem validate_ok_iff (l : List knapsack_item_t) (cap : Int) :
    validate_inputs (some l) cap = KNAPSACK_OK ↔
      l ≠ [] ∧ l.length ≤ KNAPSACK_MAX_ITEMS ∧ 0 ≤ cap ∧ cap ≤ KNAPSACK_MAX_CAPACITY ∧
        ∀ it ∈ l, 0 < it.weight ∧ 0 ≤ it.value := by
  constructor
  · intro h
    simp only [validate_inputs] at h
    by_cases h1 : l.length = 0
    · rw [if_pos h1] at h; exact absurd h (by decide)
    rw [if_neg h1] at h
    by_cases h2 : l.length > KNAPSACK_MAX_ITEMS
    · rw [if_pos h2] at h; exact absurd h (by decide)
    rw [if_neg h2] at h
    by_cases h3 : cap < 0 ∨ cap > KNAPSACK_MAX_CAPACITY
    · rw [if_pos h3] at h; exact absurd h (by decide)
    rw [if_neg h3] at h
    by_cases h4 : (l.any fun it => decide (it.weight ≤ 0 ∨ it.value < 0)) = true
    · rw [if_pos h4] at h; exact absurd h (by decide)
    push_neg at h3
    refine ⟨by simpa [List.length_eq_zero] using h1, Nat.not_lt.mp h2, h3.1, h3.2, ?_⟩
    intro it hit
    by_contra hbad
    apply h4
    rw [List.any_eq_true]
    exact ⟨it, hit, by rw [decide_eq_true_eq]; omega⟩
  · rintro ⟨hne, hlen, h0, hM, hitems⟩
    have h1 : ¬(l.length = 0) := by simpa [List.length_eq_zero] using hne
    have h2 : ¬(l.length > KNAPSACK_MAX_ITEMS) := Nat.not_lt.mpr hlen
    have h3 : ¬(cap < 0 ∨ cap > KNAPSACK_MAX_CAPACITY) := by push_neg; exact ⟨h0, hM⟩
    have h4 : ¬((l.any fun it => decide (it.weight ≤ 0 ∨ it.value < 0)) = true) := by
      intro hany
      rw [List.any_eq_true] at hany
      obtain ⟨it, hit, hcond⟩ := hany
      rw [decide_eq_true_eq] at hcond
      have := hitems it hit
      omega
    simp only [validate_inputs]
    rw [if_neg h1, if_neg h2, if_neg h3, if_neg h4]

/-- validate_inputs never reports a dimension overflow. -/
theorem validate_ne_dimension (items : Option (List knapsack_item_t)) (cap : Int) :
    validate_inputs items cap ≠ KNAPSACK_ERR_DIMENSION_OVERFLOW := by
  cases items with
  | none => simp [validate_inputs]
  | some l =>
    simp only [validate_inputs]
    by_cases h1 : l.length = 0
    · rw [if_pos h1]; decide
    rw [if_neg h1]
    by_cases h2 : l.length > KNAPSACK_MAX_ITEMS
    · rw [if_pos h2]; decide
    rw [if_neg h2]
    by_cases h3 : cap < 0 ∨ cap > KNAPSACK_MAX_CAPACITY
    · rw [if_pos h3]; decide
    rw [if_neg h3]
    by_cases h4 : (l.any fun it => decide (it.weight ≤ 0 ∨ it.value < 0)) = true
    · rw [if_pos h4]; decide
    rw [if_neg h4]; decide

/-- After successful validation, the dimension guards of
knapsack_solve_status can never fire: count is in [1, 100] and
width = capacity + 1 is in [1, 100001], far below SIZE_MAX / count. -/
theorem dimension_guards_false (l : List knapsack_item_t) (cap : Int)
    (hok : validate_inputs (some l) cap = KNAPSACK_OK) :
    ¬(l.length ≠ 0 ∧ cap.toNat + 1 > SIZE_MAX / l.length) ∧
      (cap.toNat + 1) * l.length ≠ 0 := by
  obtain ⟨hne, hcount, hcap0, hcapM, _⟩ := (validate_ok_iff l cap).mp hok
  have hlen : 0 < l.length := List.length_pos.mpr hne
  have hwidth : cap.toNat + 1 ≤ 100001 := by
    simp only [KNAPSACK_MAX_CAPACITY] at hcapM
    omega
  constructor
  · rintro ⟨-, hgt⟩
    have hdiv : SIZE_MAX / KNAPSACK_MAX_ITEMS ≤ SIZE_MAX / l.length :=
      Nat.div_le_div_left hcount hlen
    have hbig : 100001 ≤ SIZE_MAX / KNAPSACK_MAX_ITEMS := by decide
    omega
  · exact Nat.mul_ne_zero (by omega) (by omega)

/-- A successful solve decomposes into successful validation, a successful
DP run, and a successful reconstruction at the selected cell. -/
theorem solve_ok_elim (ws_alloc_ok idx_alloc_ok : Bool) (l : List knapsack_item_t)
    (cap : Int) (r : knapsack_result_t)
    (h : knapsack_solve_status ws_alloc_ok idx_alloc_ok (some l) cap = (KNAPSACK_OK, r)) :
    validate_inputs (some l) cap = KNAPSACK_OK ∧
      ∃ wfin, run_dp l (cap.toNat + 1) = some wfin ∧
        reconstruct_solution idx_alloc_ok wfin l l.length (select_best_cap wfin) = some r := by
  simp only [knapsack_solve_status] at h
  split at h
  · rename_i hne
    injection h with h1 h2
    exact absurd h1 hne
  · rename_i hok
    rw [not_ne_iff] at hok
    simp only [Option.getD_some] at h
    refine ⟨hok, ?_⟩
    split at h
    · injection h with h1 h2; cases h1
    split at h
    · injection h with h1 h2; cases h1
    split at h
    · injection h with h1 h2; cases h1
    split at h
    · injection h with h1 h2; cases h1
    · rename_i wfin hrun
      split at h
      · injection h with h1 h2; cases h1
      · rename_i r2 hrec
        injection h with h1 h2
        subst h2
        exact ⟨wfin, hrun, hrec⟩

/-- The full description of a successful solve: invariant-carrying final
workspace, validated input domain, dominance of the selected cell, and the
result fields expressed through the backtracking walk. -/
theorem solve_ok_main (ws_alloc_ok idx_alloc_ok : Bool) (l : List knapsack_item_t)
    (cap : Int) (r : knapsack_result_t)
    (h : knapsack_solve_status ws_alloc_ok idx_alloc_ok (some l) cap = (KNAPSACK_OK, r)) :
    ∃ wfin : knapsack_workspace_t,
      DpInv l l.length wfin ∧
      wfin.width = cap.toNat + 1 ∧
      0 ≤ cap ∧
      cap ≤ KNAPSACK_MAX_CAPACITY ∧
      (∀ x ∈ l, 0 < x.weight) ∧
      select_best_cap wfin < wfin.width ∧
      (∀ c < wfin.width, wfin.prev_value c ≤ wfin.prev_value (select_best_cap wfin) ∧
        (wfin.prev_value c = wfin.prev_value (select_best_cap wfin) →
          wfin.prev_weight (select_best_cap wfin) ≤ wfin.prev_weight c)) ∧
      r.optimal_value = wfin.prev_value (select_best_cap wfin) ∧
      r.selected_indices = reconstruct_walk wfin l l.length (select_best_cap wfin) ∧
      r.selected_count = (reconstruct_walk wfin l l.length (select_best_cap wfin)).length := by
  obtain ⟨hok, wfin, hrun, hrec⟩ := solve_ok_elim ws_alloc_ok idx_alloc_ok l cap r h
  obtain ⟨hne, hcnt, hcap0, hcapM, hitems⟩ := (validate_ok_iff l cap).mp hok
  have hpos : ∀ x ∈ l, 0 < x.weight := fun x hx => (hitems x hx).1
  obtain ⟨hinv, hWeq⟩ := run_dp_inv l (cap.toNat + 1) wfin hpos hrun
  have hw0 : 0 < wfin.width := by omega
  obtain ⟨hblt, hdom⟩ := select_best_cap_spec wfin hw0
  have hsorted : (reconstruct_walk wfin l l.length (select_best_cap wfin)).Pairwise (· < ·) :=
    hinv.walk_sorted _ hblt
  have hsorted2 : List.Sorted (· ≤ ·)
      (reconstruct_walk wfin l l.length (select_best_cap wfin)) :=
    List.Pairwise.imp (fun hab => le_of_lt hab) hsorted
  have hsort_eq :
      (reconstruct_walk wfin l l.length (select_best_cap wfin)).insertionSort (· ≤ ·) =
        reconstruct_walk wfin l l.length (select_best_cap wfin) :=
    List.Sorted.insertionSort_eq hsorted2
  simp only [reconstruct_solution] at hrec
  by_cases hlen : (reconstruct_walk wfin l l.length (select_best_cap wfin)).length = 0
  · rw [if_pos hlen] at hrec
    injection hrec with hr
    subst hr
    have hwalknil := List.length_eq_zero.mp hlen
    exact ⟨wfin, hinv, hWeq, hcap0, hcapM, hpos, hblt, hdom, rfl,
      by rw [hwalknil], by rw [hlen]⟩
  · rw [if_neg hlen] at hrec
    by_cases hidx : idx_alloc_ok = false
    · rw [if_pos hidx] at hrec; cases hrec
    · rw [if_neg hidx] at hrec
      injection hrec with hr
      subst hr
      exact ⟨wfin, hinv, hWeq, hcap0, hcapM, hpos, hblt, hdom, rfl,
        hsort_eq, by rw [hsort_eq]⟩

theorem le_foldr_max (L : List Int) (x : Int) (hx : x ∈ L) : x ≤ L.foldr max 0 := by
  induction L with
  | nil => cases hx
  | cons a L ih =>
    rcases List.mem_cons.mp hx with rfl | hx'
    · exact le_max_left _ _
    · exact le_trans (ih hx') (le_max_right _ _)

theorem foldr_max_le (L : List Int) (b : Int) (hb : 0 ≤ b)
    (h : ∀ x ∈ L, x ≤ b) : L.foldr max 0 ≤ b := by
  induction L with
  | nil => simpa using hb
  | cons a L ih =>
    simp only [List.foldr_cons]
    exact max_le (h a (List.mem_cons_self a L))
      (ih fun x hx => h x (List.mem_cons_of_mem _ hx))

/-- C3: Feasibility and value consistency — on every KNAPSACK_OK return, the
items at selected_indices weigh no more than the capacity, and
optimal_value is exactly the sum of their values (0 for an empty
selection). -/
theorem ok_result_feasible_and_value_consistent (ws_alloc_ok idx_alloc_ok : Bool)
    (l : List knapsack_item_t) (cap : Int) (r : knapsack_result_t)
    (h : knapsack_solve_status ws_alloc_ok idx_alloc_ok (some l) cap = (KNAPSACK_OK, r)) :
    subset_weight (items_at l r.selected_indices) ≤ cap ∧
      subset_value (items_at l r.selected_indices) = r.optimal_value := by
  obtain ⟨wfin, hinv, hWeq, hcap0, hcapM, hpos, hblt, hdom, hopt, hsel, hcnt⟩ :=
    solve_ok_main ws_alloc_ok idx_alloc_ok l cap r h
  rw [hsel]
  constructor
  · rw [hinv.walk_weight _ hblt]
    obtain ⟨S, hS, hle, hveq, hweq⟩ := hinv.achieved (select_best_cap wfin) hblt
    have hbw : select_best_cap wfin < cap.toNat + 1 := by rw [← hWeq]; exact hblt
    omega
  · rw [hinv.walk_value _ hblt, hopt]

/-- C3 witness: a concrete successful solve hits the theorem's
hypothesis. -/
theorem ok_result_feasible_and_value_consistent_witness :
    knapsack_solve_status true true (some [⟨1, 1⟩]) 1 =
        (KNAPSACK_OK, { optimal_value := 1, selected_count := 1, selected_indices := [0] }) ∧
      (subset_weight (items_at [⟨1, 1⟩]
          ({ optimal_value := 1, selected_count := 1,
             selected_indices := [0] : knapsack_result_t }).selected_indices) ≤ 1 ∧
        subset_value (items_at [⟨1, 1⟩]
          ({ optimal_value := 1, selected_count := 1,
             selected_indices := [0] : knapsack_result_t }).selected_indices) =
          ({ optimal_value := 1, selected_count := 1,
             selected_indices := [0] : knapsack_result_t }).optimal_value) :=
  ⟨by decide,
    ok_result_feasible_and_value_consistent true true [⟨1, 1⟩] 1
      { optimal_value := 1, selected_count := 1, selected_indices := [0] } (by decide)⟩

/-- C8: Ordering of the output — on every KNAPSACK_OK return,
selected_indices is strictly ascending (hence duplicate-free), every entry
is a valid index below the item count, and selected_count is its length. -/
theorem ok_result_indices_ascending (ws_alloc_ok idx_alloc_ok : Bool)
    (l : List knapsack_item_t) (cap : Int) (r : knapsack_result_t)
    (h : knapsack_solve_status ws_alloc_ok idx_alloc_ok (some l) cap = (KNAPSACK_OK, r)) :
    r.selected_indices.Pairwise (· < ·) ∧
      (∀ j ∈ r.selected_indices, j < l.length) ∧
      r.selected_count = r.selected_indices.length := by
  obtain ⟨wfin, hinv, hWeq, hcap0, hcapM, hpos, hblt, hdom, hopt, hsel, hcnt⟩ :=
    solve_ok_main ws_alloc_ok idx_alloc_ok l cap r h
  rw [hsel]
  exact ⟨hinv.walk_sorted _ hblt, fun j hj => hinv.walk_bounds _ hblt j hj,
    by rw [hcnt]⟩

/-- C8 witness: a concrete successful solve hits the theorem's
hypothesis. -/
theorem ok_result_indices_ascending_witness :
    knapsack_solve_status true true (some [⟨1, 2⟩, ⟨1, 3⟩]) 2 =
        (KNAPSACK_OK,
          { optimal_value := 5, selected_count := 2, selected_indices := [0, 1] }) ∧
      (([0, 1] : List Nat).Pairwise (· < ·) ∧
        (∀ j ∈ ([0, 1] : List Nat), j < ([⟨1, 2⟩, ⟨1, 3⟩] : List knapsack_item_t).length) ∧
        (2 : Nat) = ([0, 1] : List Nat).length) :=
  ⟨by decide,
    ok_result_indices_ascending true true [⟨1, 2⟩, ⟨1, 3⟩] 2
      { optimal_value := 5, selected_count := 2, selected_indices := [0, 1] } (by decide)⟩

/-- C9: Implicit non-negativity — on every KNAPSACK_OK return the reported
optimal_value is at least 0, because validation rejects negative values and
every DP cell starts at 0 and only ever grows. -/
theorem ok_result_value_nonneg (ws_alloc_ok idx_alloc_ok : Bool)
    (l : List knapsack_item_t) (cap : Int) (r : knapsack_result_t)
    (h : knapsack_solve_status ws_alloc_ok idx_alloc_ok (some l) cap = (KNAPSACK_OK, r)) :
    0 ≤ r.optimal_value := by
  obtain ⟨wfin, hinv, hWeq, hcap0, hcapM, hpos, hblt, hdom, hopt, hsel, hcnt⟩ :=
    solve_ok_main ws_alloc_ok idx_alloc_ok l cap r h
  rw [hopt]
  have hmax := hinv.maximal (select_best_cap wfin) hblt [] (List.nil_sublist _)
    (by simp [subset_weight])
  simpa [subset_value] using hmax

/-- C9 witness: a concrete successful solve hits the theorem's
hypothesis. -/
theorem ok_result_value_nonneg_witness :
    knapsack_solve_status true true (some [⟨2, 7⟩]) 1 =
        (KNAPSACK_OK, { optimal_value := 0, selected_count := 0, selected_indices := [] }) ∧
      (0 : Int) ≤ 0 :=
  ⟨by decide,
    ok_result_value_nonneg true true [⟨2, 7⟩] 1
      { optimal_value := 0, selected_count := 0, selected_indices := [] } (by decide)⟩

/-- C1: Exactness — on every KNAPSACK_OK return, optimal_value equals the
brute-force maximum, over all 2^count sublists of the item list whose total
weight fits the capacity, of the sublist's total value. -/
theorem ok_result_exact (ws_alloc_ok idx_alloc_ok : Bool)
    (l : List knapsack_item_t) (cap : Int) (r : knapsack_result_t)
    (h : knapsack_solve_status ws_alloc_ok idx_alloc_ok (some l) cap = (KNAPSACK_OK, r)) :
    r.optimal_value = brute_force_best l cap := by
  obtain ⟨wfin, hinv, hWeq, hcap0, hcapM, hpos, hblt, hdom, hopt, hsel, hcnt⟩ :=
    solve_ok_main ws_alloc_ok idx_alloc_ok l cap r h
  have hub : ∀ S, S <+ l → subset_weight S ≤ cap →
      subset_value S ≤ wfin.prev_value (select_best_cap wfin) := by
    intro S hS hw
    have hS' : S <+ l.take l.length := by rw [List.take_length]; exact hS
    have hw0 : 0 ≤ subset_weight S :=
      subset_weight_nonneg S fun x hx => le_of_lt (hpos x (hS.subset hx))
    have hcSlt : (subset_weight S).toNat < wfin.width := by rw [hWeq]; omega
    have hmax := hinv.maximal (subset_weight S).toNat hcSlt S hS' (by omega)
    exact le_trans hmax (hdom (subset_weight S).toNat hcSlt).1
  have hnonneg : 0 ≤ wfin.prev_value (select_best_cap wfin) := by
    have hmax := hinv.maximal (select_best_cap wfin) hblt [] (List.nil_sublist _)
      (by simp [subset_weight])
    simpa [subset_value] using hmax
  rw [hopt]
  apply le_antisymm
  · obtain ⟨S0, hS0, hle0, hveq0, hweq0⟩ := hinv.achieved (select_best_cap wfin) hblt
    rw [List.take_length] at hS0
    have hS0w : subset_weight S0 ≤ cap := by
      have hbw : select_best_cap wfin < cap.toNat + 1 := by rw [← hWeq]; exact hblt
      omega
    have hmem : subset_value S0 ∈
        ((l.sublists.filter fun S => decide (subset_weight S ≤ cap)).map subset_value) := by
      refine List.mem_map.mpr ⟨S0, ?_, rfl⟩
      refine List.mem_filter.mpr ⟨List.mem_sublists.mpr hS0, ?_⟩
      rw [decide_eq_true_eq]
      exact hS0w
    rw [← hveq0]
    exact le_foldr_max _ _ hmem
  · apply foldr_max_le _ _ hnonneg
    intro x hx
    obtain ⟨S, hSfil, rfl⟩ := List.mem_map.mp hx
    obtain ⟨hSsub, hSw⟩ := List.mem_filter.mp hSfil
    rw [decide_eq_true_eq] at hSw
    exact hub S (List.mem_sublists.mp hSsub) hSw

/-- C1 witness: a concrete successful solve hits the theorem's
hypothesis. -/
theorem ok_result_exact_witness :
    knapsack_solve_status true true (some [⟨2, 3⟩, ⟨3, 4⟩]) 5 =
        (KNAPSACK_OK,
          { optimal_value := 7, selected_count := 2, selected_indices := [0, 1] }) ∧
      (7 : Int) = brute_force_best [⟨2, 3⟩, ⟨3, 4⟩] 5 :=
  ⟨by decide,
    ok_result_exact true true [⟨2, 3⟩, ⟨3, 4⟩] 5
      { optimal_value := 7, selected_count := 2, selected_indices := [0, 1] } (by decide)⟩

/-- C2: Tie-break — on every KNAPSACK_OK return, the total weight of the
items at selected_indices is at most the total weight of every sublist of
the items that also reaches optimal_value within the capacity. -/
theorem ok_result_min_weight_among_optimal (ws_alloc_ok idx_alloc_ok : Bool)
    (l : List knapsack_item_t) (cap : Int) (r : knapsack_result_t)
    (S : List knapsack_item_t)
    (h : knapsack_solve_status ws_alloc_ok idx_alloc_ok (some l) cap = (KNAPSACK_OK, r))
    (hS : S <+ l) (hw : subset_weight S ≤ cap)
    (hv : subset_value S = r.optimal_value) :
    subset_weight (items_at l r.selected_indices) ≤ subset_weight S := by
  obtain ⟨wfin, hinv, hWeq, hcap0, hcapM, hpos, hblt, hdom, hopt, hsel, hcnt⟩ :=
    solve_ok_main ws_alloc_ok idx_alloc_ok l cap r h
  rw [hsel, hinv.walk_weight _ hblt]
  have hS' : S <+ l.take l.length := by rw [List.take_length]; exact hS
  have hw0 : 0 ≤ subset_weight S :=
    subset_weight_nonneg S fun x hx => le_of_lt (hpos x (hS.subset hx))
  have hcSlt : (subset_weight S).toNat < wfin.width := by rw [hWeq]; omega
  have hSmax := hinv.maximal (subset_weight S).toNat hcSlt S hS' (by omega)
  have hdomS := hdom (subset_weight S).toNat hcSlt
  have hveq : subset_value S = wfin.prev_value (select_best_cap wfin) := by rw [hv, hopt]
  have hcSeq : wfin.prev_value (subset_weight S).toNat =
      wfin.prev_value (select_best_cap wfin) := le_antisymm hdomS.1 (by omega)
  have hminS := hinv.minimal (subset_weight S).toNat hcSlt S hS' (by omega) (by omega)
  have hwb := hdomS.2 hcSeq
  omega

/-- C2 witness: a concrete successful solve, with a heavier equal-value
sublist, hits every hypothesis. Items (2,1) and (1,1) both reach value 1
alone within capacity 2; the solver returns the lighter one, whose weight
is at most the weight of the heavier optimal sublist [(2,1)]. -/
theorem ok_result_min_weight_among_optimal_witness :
    knapsack_solve_status true true (some [⟨2, 1⟩, ⟨1, 1⟩]) 2 =
        (KNAPSACK_OK,
          { optimal_value := 1, selected_count := 1, selected_indices := [1] }) ∧
      ([⟨2, 1⟩] : List knapsack_item_t) <+ [⟨2, 1⟩, ⟨1, 1⟩] ∧
      subset_weight [⟨2, 1⟩] ≤ 2 ∧
      subset_value [⟨2, 1⟩] = (1 : Int) ∧
      subset_weight (items_at [⟨2, 1⟩, ⟨1, 1⟩] [1]) ≤ subset_weight [⟨2, 1⟩] :=
  ⟨by decide, by decide, by decide, by decide,
    ok_result_min_weight_among_optimal true true [⟨2, 1⟩, ⟨1, 1⟩] 2
      { optimal_value := 1, selected_count := 1, selected_indices := [1] }
      [⟨2, 1⟩] (by decide) (by decide) (by decide) (by decide)⟩

theorem subset_weight_pos (S : List knapsack_item_t) (hne : S ≠ [])
    (h : ∀ x ∈ S, 0 < x.weight) : 0 < subset_weight S := by
  cases S with
  | nil => exact absurd rfl hne
  | cons a T =>
    have h1 := h a (List.mem_cons_self a T)
    have h2 := subset_weight_nonneg T fun x hx => le_of_lt (h x (List.mem_cons_of_mem _ hx))
    simp only [subset_weight, List.map_cons, List.sum_cons] at *
    omega

theorem dp_item_step_width (i : Nat) (it : knapsack_item_t)
    (w w2 : knapsack_workspace_t) (h : dp_item_step i it w = some w2) :
    w2.width = w.width := by
  simp only [dp_item_step] at h
  by_cases hok : dp_row_ok w it.weight.toNat it.value = true
  · rw [if_pos hok] at h
    injection h with h2
    rw [← h2]
  · rw [if_neg hok] at h
    cases h

theorem dp_item_step_isSome (i : Nat) (it : knapsack_item_t) (w : knapsack_workspace_t)
    (hok : dp_row_ok w it.weight.toNat it.value = true) :
    ∃ w2, dp_item_step i it w = some w2 := by
  simp only [dp_item_step]
  rw [if_pos hok]
  exact ⟨_, rfl⟩

/-- At width 1 (capacity 0) the DP inner loop never runs for positive-weight
items, so the overflow scan trivially passes and the fold succeeds. -/
theorem run_dp_aux_width_one :
    ∀ (rest : List knapsack_item_t) (i : Nat) (w : knapsack_workspace_t),
      w.width = 1 → (∀ x ∈ rest, 0 < x.weight) →
      ∃ w2, run_dp_aux i rest w = some w2 := by
  intro rest
  induction rest with
  | nil => intro i w _ _; exact ⟨w, rfl⟩
  | cons it rest ih =>
    intro i w hW hpos
    have hok : dp_row_ok w it.weight.toNat it.value = true := by
      unfold dp_row_ok
      rw [hW, show List.range 1 = [0] from rfl]
      simp only [List.all_cons, List.all_nil, Bool.and_true]
      rw [if_neg]
      intro hle
      have := hpos it (List.mem_cons_self it rest)
      omega
    obtain ⟨w2, hw2⟩ := dp_item_step_isSome i it w hok
    have hW2 : w2.width = 1 := by rw [dp_item_step_width i it w w2 hw2, hW]
    obtain ⟨wf, hwf⟩ := ih (i + 1) w2 hW2 fun x hx => hpos x (List.mem_cons_of_mem _ hx)
    refine ⟨wf, ?_⟩
    simp only [run_dp_aux, hw2]
    exact hwf

/-- C7: Zero-capacity boundary — for every item list accepted by validation
(non-empty, within the count bound, positive weights, non-negative values),
solving with capacity 0 succeeds with optimal_value 0 and an empty
selection (NULL selected_indices). -/
theorem zero_capacity_empty_selection (idx_alloc_ok : Bool) (l : List knapsack_item_t)
    (hne : l ≠ []) (hcnt : l.length ≤ KNAPSACK_MAX_ITEMS)
    (hwts : ∀ x ∈ l, 0 < x.weight) (hvals : ∀ x ∈ l, 0 ≤ x.value) :
    knapsack_solve_status true idx_alloc_ok (some l) 0 =
      (KNAPSACK_OK,
        { optimal_value := 0, selected_count := 0, selected_indices := [] }) := by
  have hok : validate_inputs (some l) 0 = KNAPSACK_OK :=
    (validate_ok_iff l 0).mpr ⟨hne, hcnt, le_refl 0, by decide,
      fun x hx => ⟨hwts x hx, hvals x hx⟩⟩
  obtain ⟨wfin, hrun⟩ :=
    run_dp_aux_width_one l 0 (allocate_workspace ((0 : Int).toNat + 1)) rfl hwts
  have hrun2 : run_dp l ((0 : Int).toNat + 1) = some wfin := hrun
  obtain ⟨hinv, hWeq⟩ := run_dp_inv l ((0 : Int).toNat + 1) wfin hwts hrun2
  have hW1 : wfin.width = 1 := hWeq
  obtain ⟨hblt, hdom⟩ := select_best_cap_spec wfin (by omega)
  have hb0 : select_best_cap wfin = 0 := by omega
  obtain ⟨S, hS, hle, hveq, hweq⟩ := hinv.achieved 0 (by omega)
  have hS0 : S = [] := by
    by_contra hSne
    have hposS := subset_weight_pos S hSne fun x hx =>
      hwts x (List.take_subset _ _ (hS.subset hx))
    omega
  subst hS0
  have hpv0 : wfin.prev_value 0 = 0 := by
    rw [← hveq]; simp [subset_value]
  have hpw0 : ((wfin.prev_weight 0 : Nat) : Int) = 0 := by
    rw [← hweq]; simp [subset_weight]
  have hwalkw := hinv.walk_weight 0 (by omega)
  have hwalknil : reconstruct_walk wfin l l.length 0 = [] := by
    by_contra hne2
    have hichain : items_at l (reconstruct_walk wfin l l.length 0) ≠ [] := by
      simp only [items_at, ne_eq, List.map_eq_nil_iff]
      exact hne2
    have hposS : 0 < subset_weight (items_at l (reconstruct_walk wfin l l.length 0)) := by
      apply subset_weight_pos _ hichain
      intro x hx
      obtain ⟨j, hjR, rfl⟩ := List.mem_map.mp hx
      have hjlt : j < l.length := hinv.walk_bounds 0 (by omega) j hjR
      have hgd : l.getD j { weight := 0, value := 0 } = l[j] := by
        rw [List.getD_eq_getElem?_getD, List.getElem?_eq_getElem hjlt]
        rfl
      rw [hgd]
      exact hwts _ (List.getElem_mem hjlt)
    omega
  simp only [knapsack_solve_status]
  rw [if_neg (not_ne_iff.mpr hok)]
  obtain ⟨hg1, hg2⟩ := dimension_guards_false l 0 hok
  simp only [Option.getD_some]
  rw [if_neg hg1, if_neg hg2, if_neg (by decide : ¬(true = false)), hrun2]
  have hrec : reconstruct_solution idx_alloc_ok wfin l l.length (select_best_cap wfin) =
      some { optimal_value := 0, selected_count := 0, selected_indices := [] } := by
    simp only [reconstruct_solution, hb0, hwalknil, List.length_nil]
    rw [hpv0]
    exact if_pos trivial
  simp only [hrec]

/-- C7 witness: a concrete item list hits every hypothesis. -/
theorem zero_capacity_empty_selection_witness :
    ([⟨1, 1⟩] : List knapsack_item_t) ≠ [] ∧
      ([⟨1, 1⟩] : List knapsack_item_t).length ≤ KNAPSACK_MAX_ITEMS ∧
      (∀ x ∈ ([⟨1, 1⟩] : List knapsack_item_t), 0 < x.weight) ∧
      (∀ x ∈ ([⟨1, 1⟩] : List knapsack_item_t), 0 ≤ x.value) ∧
      knapsack_solve_status true true (some [⟨1, 1⟩]) 0 =
        (KNAPSACK_OK,
          { optimal_value := 0, selected_count := 0, selected_indices := [] }) :=
  ⟨by decide, by decide, by decide, by decide,
    zero_capacity_empty_selection true [⟨1, 1⟩] (by decide) (by decide)
      (by decide) (by decide)⟩

/-- C6: Error atomicity — every call of knapsack_solve_status (with a
non-NULL out_result, the only case the model covers) that returns a status
other than KNAPSACK_OK leaves out_result fully zeroed: optimal_value 0,
selected_count 0, and a NULL selected_indices. -/
theorem error_status_leaves_result_zeroed (ws_alloc_ok idx_alloc_ok : Bool)
    (items : Option (List knapsack_item_t)) (cap : Int)
    (st : knapsack_status_t) (r : knapsack_result_t)
    (h : knapsack_solve_status ws_alloc_ok idx_alloc_ok items cap = (st, r))
    (hne : st ≠ KNAPSACK_OK) : r = reset_result := by
  simp only [knapsack_solve_status] at h
  split at h
  · injection h with h1 h2; exact h2.symm
  split at h
  · injection h with h1 h2; exact h2.symm
  split at h
  · injection h with h1 h2; exact h2.symm
  split at h
  · injection h with h1 h2; exact h2.symm
  split at h
  · injection h with h1 h2; exact h2.symm
  split at h
  · injection h with h1 h2; exact h2.symm
  · injection h with h1 h2; exact absurd h1.symm hne

/-- C6 witness: a concrete erroring call (empty item list) really hits the
theorem's hypotheses. -/
theorem error_status_leaves_result_zeroed_witness :
    knapsack_solve_status true true (some []) 5 = (KNAPSACK_ERR_INVALID_ITEMS, reset_result) ∧
      KNAPSACK_ERR_INVALID_ITEMS ≠ KNAPSACK_OK ∧
      reset_result = reset_result :=
  ⟨by decide, by decide,
    error_status_leaves_result_zeroed true true (some []) 5 KNAPSACK_ERR_INVALID_ITEMS
      reset_result (by decide) (by decide)⟩

/-- C10: the dimension-overflow branch is unreachable — knapsack_solve_status
never returns KNAPSACK_ERR_DIMENSION_OVERFLOW, because validation has
already bounded count to [1, 100] and capacity to [0, 100000], so
width = capacity + 1 ≤ 100001 never exceeds SIZE_MAX / count and
width * count is never zero. -/
theorem dimension_overflow_unreachable (ws_alloc_ok idx_alloc_ok : Bool)
    (items : Option (List knapsack_item_t)) (cap : Int) :
    (knapsack_solve_status ws_alloc_ok idx_alloc_ok items cap).1 ≠
      KNAPSACK_ERR_DIMENSION_OVERFLOW := by
  simp only [knapsack_solve_status]
  split
  · exact validate_ne_dimension items cap
  · rename_i hok
    rw [not_ne_iff] at hok
    cases items with
    | none => exact absurd hok (by simp [validate_inputs])
    | some l =>
      obtain ⟨hg1, hg2⟩ := dimension_guards_false l cap hok
      simp only [Option.getD_some]
      rw [if_neg hg1, if_neg hg2]
      split
      · simp
      split
      · simp
      split
      · simp
      · simp

/-- C5: arithmetic overflow is a fatal, reported error. First, the concrete
instance [(1, INT_MAX), (1, 1)] with capacity 2 returns
KNAPSACK_ERR_INT_OVERFLOW with a zeroed result. Second,
add_int_no_overflow fails exactly when the exact sum leaves the int range.
Third, whenever the DP fold aborts on such a failure (run_dp = none), the
whole solve fails with KNAPSACK_ERR_INT_OVERFLOW and a zeroed result
instead of wrapping or clamping. -/
theorem int_overflow_is_fatal :
    knapsack_solve_status true true (some [⟨1, INT_MAX⟩, ⟨1, 1⟩]) 2 =
        (KNAPSACK_ERR_INT_OVERFLOW, reset_result) ∧
      (∀ lhs rhs : Int, add_int_no_overflow lhs rhs = none ↔
        (lhs + rhs > INT_MAX ∨ lhs + rhs < INT_MIN)) ∧
      (∀ (idx_alloc_ok : Bool) (l : List knapsack_item_t) (cap : Int),
        validate_inputs (some l) cap = KNAPSACK_OK →
        run_dp l (cap.toNat + 1) = none →
        knapsack_solve_status true idx_alloc_ok (some l) cap =
          (KNAPSACK_ERR_INT_OVERFLOW, reset_result)) := by
  refine ⟨by decide, ?_, ?_⟩
  · intro lhs rhs
    rw [show add_int_no_overflow lhs rhs =
      if lhs + rhs > INT_MAX ∨ lhs + rhs < INT_MIN then none else some (lhs + rhs) from rfl]
    split_ifs with h
    · simp [h]
    · simp [h]
  · intro idx_alloc_ok l cap hok hdp
    simp only [knapsack_solve_status]
    rw [if_neg (not_ne_iff.mpr hok)]
    obtain ⟨hg1, hg2⟩ := dimension_guards_false l cap hok
    simp only [Option.getD_some]
    rw [if_neg hg1, if_neg hg2, if_neg (by decide : ¬(true = false)), hdp]

/-- C5 witness: the general overflow conjunct is non-vacuous at the
concrete overflowing instance. -/
theorem int_overflow_is_fatal_witness :
    validate_inputs (some [⟨1, INT_MAX⟩, ⟨1, 1⟩]) 2 = KNAPSACK_OK ∧
      run_dp [⟨1, INT_MAX⟩, ⟨1, 1⟩] ((2 : Int).toNat + 1) = none ∧
      knapsack_solve_status true true (some [⟨1, INT_MAX⟩, ⟨1, 1⟩]) 2 =
        (KNAPSACK_ERR_INT_OVERFLOW, reset_result) :=
  ⟨by decide, by rfl,
    int_overflow_is_fatal.2.2 true [⟨1, INT_MAX⟩, ⟨1, 1⟩] 2 (by decide) (by rfl)⟩

/-- C4: the claim that negative item values pass validation is false on this
code — validate_inputs rejects any item with value < 0, so the repository's
own negative-value instance [(1, INT_MIN), (1, -1)] with capacity 2 (which
the repository's test suite expects to solve successfully with optimal
value 0) instead returns KNAPSACK_ERR_INVALID_ITEMS with a zeroed result. -/
theorem negative_values_rejected_eval :
    knapsack_solve_status true true (some [⟨1, INT_MIN⟩, ⟨1, -1⟩]) 2 =
      (KNAPSACK_ERR_INVALID_ITEMS, reset_result) := by
  decide

end Knapsack
